import Mathlib

/-!
Shallow embedding of `src/dqn_agent.py` (repository hbfs/dist-dqn) and proofs
of the specification claims about it.

Conventions of the embedding:
* Python floats are modelled as rationals (`ℚ`); all the arithmetic the claims
  are about (reward accumulation, Bellman targets, probability decay) is exact.
* External collaborators (the gym environment, the TensorFlow session/network,
  the random number generator) are modelled as explicit oracles passed in as
  arguments: the environment as a per-step response function, `random.random()`
  and `action_space.sample()` as per-step value streams, forward evaluation of
  the network as a function from a state to a row of q-values.
* Stateful methods of `DQNAgent` become functions that thread an explicit
  state value and also emit a trace of the externally observable calls they
  make (environment resets/steps, frame-buffer operations, replay-memory adds,
  session runs), so that ordering and frame-effect claims can be stated.
* Modules of the repository that are not under `src/` (`utils.py`,
  `frame_buffer.py`, `replay_memory.py`) are modelled from the specification;
  each such definition carries a doc comment starting with
  `Modelled from the spec:`.
-/

namespace DistDQN

/-- Modelled from the spec: `utils.decay` lives in `utils.py`, which is not
under `src/`. Spec 4.3 gives the decay law for the exploration probability as
`p_new = max(min_val, p - decay_rate)`, monotonically non-increasing toward a
configured floor. -/
def decay (val min_val decay_rate : ℚ) : ℚ :=
  max min_val (val - decay_rate)

/-- Embedding of `DQNAgent._roll_random_action_dice` (src/dqn_agent.py lines
144-152): first decay the probability, then compare the fresh uniform draw
against the decayed probability. Returns the dice outcome together with the
updated probability. -/
def rollRandomActionDice (min_val decay_rate prob draw : ℚ) : Bool × ℚ :=
  let prob2 := decay prob min_val decay_rate
  (decide (draw < prob2), prob2)

/-- Embedding of `DQNAgent._pick_action` (src/dqn_agent.py lines 127-142):
roll the dice (which also decays the probability); on success return the
random action supplied by `action_space.sample()`, otherwise the argmax of the
online-network forward evaluation on the current state. Returns the chosen
action together with the updated exploration probability. -/
def pickAction {σ α : Type} (greedy : σ → α) (sample : α)
    (min_val decay_rate : ℚ) (state : σ) (prob draw : ℚ) : α × ℚ :=
  let r := rollRandomActionDice min_val decay_rate prob draw
  (if r.1 then sample else greedy state, r.2)

/-- Exploration probability after a sequence of action-selection calls, one
per entry of `draws`: each call passes through `rollRandomActionDice`, whose
probability component is threaded to the next call. -/
def probAfterCalls (min_val decay_rate : ℚ) (prob : ℚ) : List ℚ → ℚ
  | [] => prob
  | draw :: rest =>
      probAfterCalls min_val decay_rate
        (rollRandomActionDice min_val decay_rate prob draw).2 rest

/-- Transitions stored in replay memory, as added by
`DQNAgent.train_episode` (src/dqn_agent.py line 92):
`(state, action, reward, next_state, done)`. States are kept abstract (`σ`);
actions are indices into the discrete gym action space. -/
structure Transition (σ : Type) where
  state : σ
  action : ℕ
  reward : ℚ
  next_state : σ
  done : Bool
deriving Repr, DecidableEq

/-- Modelled from the spec: `utils.one_hot` lives in `utils.py`, which is not
under `src/`. Spec 4.6: actions are encoded as one-hot vectors over the fixed
discrete action space size (`env.action_space.n`). Actions here are indices
into the action space. -/
def one_hot (action n : ℕ) : List ℚ :=
  (List.range n).map (fun i => if i = action then 1 else 0)

/-- Modelled from the spec: `ReplayMemory.get_next_states` lives in
`replay_memory.py`, which is not under `src/`. Spec 4.2: a helper extracts the
`next_state` field from a sequence of non-terminal transitions, preserving
order, for batched forward evaluation. -/
def get_next_states {σ : Type} (ts : List (Transition σ)) : List σ :=
  ts.map (fun t => t.next_state)

/-- Maximum of one row of q-values, as computed by `q_values.max(axis=1)` in
`DQNAgent._train_minibatch` (src/dqn_agent.py line 116). For the (unreachable
for an actual network output) empty row the fold returns `0`; numpy reduces a
nonempty row to its maximum element. -/
def rowMax (l : List ℚ) : ℚ :=
  l.foldl max (l.headD 0)

/-- Batched forward evaluation through the target network followed by the
per-row maximum, i.e. lines 114-116 of src/dqn_agent.py. The network itself is
external; `netEval` maps one state to its row of per-action q-values, and a
batch is evaluated row-by-row (spec 4.4: row i holds the estimates for
state i). -/
def maxQValues {σ : Type} (netEval : σ → List ℚ) (states : List σ) : List ℚ :=
  (states.map netEval).map rowMax

/-- Feed dictionary built by `DQNAgent._get_minibatch_feed_dict`
(src/dqn_agent.py lines 214-218): the three placeholder bindings
(batched states, expected q-values, one-hot actions). -/
structure FeedDict (σ : Type) where
  states : List σ
  expected_q : List ℚ
  actions : List (List ℚ)
deriving Repr, DecidableEq

/-- Loop body of `DQNAgent._get_minibatch_feed_dict` (src/dqn_agent.py lines
205-212): iterate `zip_longest(chain(non_terminal, terminal), target_q_values,
fillvalue=0)` — here `items` is the chained minibatch and `tqs` the target
q-values, padded with `0` once exhausted — and collect
`(state, reward + reward_discount * target_q, one_hot(action, n))` per item. -/
def feedRows {σ : Type} (reward_discount : ℚ) (n : ℕ) :
    List (Transition σ) → List ℚ → List (σ × ℚ × List ℚ)
  | [], _ => []
  | item :: items, tq :: tqs =>
      (item.state, item.reward + reward_discount * tq,
        one_hot item.action n) :: feedRows reward_discount n items tqs
  | item :: items, [] =>
      (item.state, item.reward + reward_discount * 0,
        one_hot item.action n) :: feedRows reward_discount n items []

/-- Embedding of `DQNAgent._get_minibatch_feed_dict` (src/dqn_agent.py lines
189-218): chain the non-terminal minibatch before the terminal one, compute
the expected q-values with `zip_longest`-with-fill-`0`, and return the three
parallel placeholder lists. -/
def get_minibatch_feed_dict {σ : Type} (reward_discount : ℚ) (n : ℕ)
    (target_q_values : List ℚ)
    (non_terminal_minibatch terminal_minibatch : List (Transition σ)) :
    FeedDict σ :=
  let rows := feedRows reward_discount n
    (non_terminal_minibatch ++ terminal_minibatch) target_q_values
  { states := rows.map (fun r => r.1)
    expected_q := rows.map (fun r => r.2.1)
    actions := rows.map (fun r => r.2.2) }

/-- Externally observable calls issued by `DQNAgent._train_minibatch`: the
replay-memory sampling request, the target-network forward evaluation
(`session.run` of `q_output` with the target parameters fed), and the gradient
update (`session.run(train_op, feed_dict)`). -/
inductive NetworkCall (σ : Type) where
  | getMinibatch (minibatch_size : ℕ)
  | predictTarget (batch : List σ)
  | runTrainOp (feed : FeedDict σ)
deriving Repr, DecidableEq

/-- Embedding of `DQNAgent._train_minibatch` (src/dqn_agent.py lines 102-125)
as the list of external calls it issues. `memSize` is
`self.replay_memory.size()`; the sampled partitions (produced by the external
`replay_memory.get_minibatch`) are supplied as arguments; `netEval` is the
target-network forward evaluation. If occupancy is below the minibatch size
the method returns immediately and no call is made; otherwise it samples,
forward-evaluates the non-terminal next states through the target network,
and runs one gradient update on the assembled feed dictionary. -/
def train_minibatch {σ : Type} (reward_discount : ℚ) (n : ℕ)
    (netEval : σ → List ℚ) (memSize minibatch_size : ℕ)
    (non_terminal_minibatch terminal_minibatch : List (Transition σ)) :
    List (NetworkCall σ) :=
  if memSize < minibatch_size then []
  else
    let next_states := get_next_states non_terminal_minibatch
    let max_q_values := maxQValues netEval next_states
    let feed := get_minibatch_feed_dict reward_discount n max_q_values
      non_terminal_minibatch terminal_minibatch
    [NetworkCall.getMinibatch minibatch_size,
     NetworkCall.predictTarget next_states,
     NetworkCall.runTrainOp feed]

/-- Configuration scalars consumed by `DQNAgent` (src/dqn_agent.py accesses
them through `self.config`). -/
structure Config where
  frames_per_state : ℕ
  minibatch_size : ℕ
  init_random_action_prob : ℚ
  min_random_action_prob : ℚ
  random_action_prob_decay : ℚ
  reward_discount : ℚ
  target_update_freq : ℕ
deriving Repr, DecidableEq

/-- Embedding of the class attribute `DQNAgent.FAILURE_PENALTY`
(src/dqn_agent.py lines 19-22): a per-environment-id reward penalty on
failure, registered only for CartPole-v0. `none` models a missing key, and
`(FAILURE_PENALTY envId).getD reward` models `.get(env.spec.id, reward)`. -/
def FAILURE_PENALTY (envId : String) : Option ℚ :=
  if envId = "CartPole-v0" then some (-100) else none

/-- Result of one `env.step(action)` call: `(observation, reward, done)`
(the `info` component is discarded by the agent). -/
structure StepResult (Obs : Type) where
  observation : Obs
  reward : ℚ
  done : Bool
deriving Repr, DecidableEq

/-- Modelled from the spec: `FrameBuffer` lives in `frame_buffer.py`, which is
not under `src/`. Spec 4.1/3: a fixed-capacity rolling window of the most
recent preprocessed observations (preprocessing is folded into `Obs`); on
episode reset the window is cleared and the single seeding `append` refills it
before any state is exposed, so an `append` onto an empty window fills every
slot with the fresh observation, while an `append` onto a full window pushes
the observation and discards the oldest. -/
structure FrameBuffer (Obs : Type) where
  frames_per_state : ℕ
  frames : List Obs
deriving Repr, DecidableEq

/-- Modelled from the spec: `FrameBuffer.append` (see `FrameBuffer`). -/
def FrameBuffer.append {Obs : Type} (fb : FrameBuffer Obs) (o : Obs) :
    FrameBuffer Obs :=
  if fb.frames.isEmpty then
    { fb with frames := List.replicate fb.frames_per_state o }
  else
    { fb with frames :=
        (fb.frames ++ [o]).drop (fb.frames.length + 1 - fb.frames_per_state) }

/-- Modelled from the spec: `FrameBuffer.get_state` exposes the current
window as the composite state (spec 4.1). -/
def FrameBuffer.get_state {Obs : Type} (fb : FrameBuffer Obs) : List Obs :=
  fb.frames

/-- Mutable `DQNAgent` fields threaded through the training loop:
`self.frame_buffer`, `self.random_action_prob`, `self.total_steps`. -/
structure AgentState (Obs : Type) where
  frame_buffer : FrameBuffer Obs
  random_action_prob : ℚ
  total_steps : ℕ
deriving Repr, DecidableEq

/-- External collaborators of one `train_episode` call, as deterministic
oracles indexed by the step counter within the episode: the observation
returned by `env.reset()`, the response of `env.step(action)` at each step,
the `random.random()` draw and `action_space.sample()` result at each step,
and the argmax of the online-network forward evaluation on a state
(`_predict_q_values([state]).argmax()`). -/
structure EpisodeOracle (Obs : Type) where
  resetObs : Obs
  step : ℕ → ℕ → StepResult Obs
  randDraw : ℕ → ℚ
  randomAction : ℕ → ℕ
  greedy : List Obs → ℕ

/-- Externally observable events of one episode of `train_episode`. -/
inductive Event (Obs : Type) where
  | envReset
  | fbAppend (obs : Obs)
  | fbGetState (state : List Obs)
  | envStep (action : ℕ) (res : StepResult Obs)
  | memAdd (t : Transition (List Obs))
  | trainMinibatchCall (minibatch_size : ℕ)
deriving Repr, DecidableEq

/-- Result of `train_episode`: the updated agent fields, the returned
`(total_reward, steps)` pair, the transitions added to replay memory in
order, and the event trace. -/
structure EpisodeResult (Obs : Type) where
  agent : AgentState Obs
  total_reward : ℚ
  steps : ℕ
  added : List (Transition (List Obs))
  trace : List (Event Obs)
deriving Repr, DecidableEq

/-- Embedding of the `while not done and (steps < max_steps)` loop of
`DQNAgent.train_episode` (src/dqn_agent.py lines 76-98), by recursion on the
remaining step budget (`fuel = max_steps - steps`; `done` is false on entry).
Each iteration: pick an action (decaying the exploration probability), step
the environment, accumulate the raw reward into `total_reward`, override the
reward with the registered failure penalty if `done`, append the observation
to the frame buffer, read the next state, add the transition to replay
memory, advance the current state, train a minibatch, and bump both step
counters. -/
def episodeLoop {Obs : Type} (cfg : Config) (envId : String)
    (orc : EpisodeOracle Obs) (st : AgentState Obs) (state : List Obs)
    (stepIdx : ℕ) : ℕ → EpisodeResult Obs
  | 0 => ⟨st, 0, 0, [], []⟩
  | fuel + 1 =>
      let pick := pickAction orc.greedy (orc.randomAction stepIdx)
        cfg.min_random_action_prob cfg.random_action_prob_decay state
        st.random_action_prob (orc.randDraw stepIdx)
      let action := pick.1
      let res := orc.step stepIdx action
      let reward :=
        if res.done then (FAILURE_PENALTY envId).getD res.reward
        else res.reward
      let fb2 := st.frame_buffer.append res.observation
      let next_state := fb2.get_state
      let tr : Transition (List Obs) :=
        ⟨state, action, reward, next_state, res.done⟩
      let events := [Event.envStep action res, Event.fbAppend res.observation,
        Event.fbGetState next_state, Event.memAdd tr,
        Event.trainMinibatchCall cfg.minibatch_size]
      let st2 : AgentState Obs :=
        { frame_buffer := fb2, random_action_prob := pick.2,
          total_steps := st.total_steps + 1 }
      if res.done then ⟨st2, res.reward, 1, [tr], events⟩
      else
        let rest := episodeLoop cfg envId orc st2 next_state (stepIdx + 1) fuel
        ⟨rest.agent, res.reward + rest.total_reward, 1 + rest.steps,
          tr :: rest.added, events ++ rest.trace⟩

/-- Embedding of `DQNAgent.train_episode` (src/dqn_agent.py lines 67-100):
reset the environment, seed the frame buffer with one append of the reset
observation, read the initial state, then run the step loop. -/
def train_episode {Obs : Type} (cfg : Config) (envId : String)
    (orc : EpisodeOracle Obs) (st : AgentState Obs) (max_steps : ℕ) :
    EpisodeResult Obs :=
  let fb1 := st.frame_buffer.append orc.resetObs
  let state := fb1.get_state
  let r := episodeLoop cfg envId orc { st with frame_buffer := fb1 } state 0
    max_steps
  { r with trace := Event.envReset :: Event.fbAppend orc.resetObs ::
      Event.fbGetState state :: r.trace }

/-- Externally observable events of the top-level `DQNAgent.train` driver:
one per finished episode (stats logging) and one per
`_update_target_network()` call (target synchronization). -/
inductive DriverEvent where
  | episodeDone (reward : ℚ) (steps : ℕ)
  | updateTargetNetwork
deriving Repr, DecidableEq

/-- Predicate selecting target-synchronization events. -/
def isSync : DriverEvent → Bool
  | DriverEvent.updateTargetNetwork => true
  | _ => false

/-- Number of target-synchronization calls in a driver event list. -/
def syncCount (evs : List DriverEvent) : ℕ :=
  evs.countP isSync

/-- Embedding of `DQNAgent.__init__` (src/dqn_agent.py lines 24-41): zero the
step counter, set the exploration probability from configuration,
build the frame buffer, and call `_update_target_network()` once
unconditionally. -/
def DQNAgent_init (Obs : Type) (cfg : Config) :
    AgentState Obs × List DriverEvent :=
  ({ frame_buffer := { frames_per_state := cfg.frames_per_state, frames := [] },
     random_action_prob := cfg.init_random_action_prob,
     total_steps := 0 },
   [DriverEvent.updateTargetNetwork])

/-- Embedding of `DQNAgent.train` (src/dqn_agent.py lines 43-65) without a
supervisor (`supervisor=None`, so the cooperative-stop branch never fires):
run the configured number of episodes; after each, log the episode and, if
`total_steps % target_update_freq == 0`, call `_update_target_network()`.
Episodes draw their oracles from the family `orcs`, indexed by episode
number. -/
def train {Obs : Type} (cfg : Config) (envId : String)
    (orcs : ℕ → EpisodeOracle Obs) (st : AgentState Obs)
    (max_steps_per_episode : ℕ) (episodeIdx : ℕ) :
    ℕ → AgentState Obs × List DriverEvent
  | 0 => (st, [])
  | numEpisodes + 1 =>
      let r := train_episode cfg envId (orcs episodeIdx) st
        max_steps_per_episode
      let syncEvents :=
        if r.agent.total_steps % cfg.target_update_freq = 0 then
          [DriverEvent.updateTargetNetwork]
        else []
      let rest := train cfg envId orcs r.agent max_steps_per_episode
        (episodeIdx + 1) numEpisodes
      (rest.1,
        DriverEvent.episodeDone r.total_reward r.steps :: syncEvents ++ rest.2)

/-- Cumulative `total_steps` values observed at each episode boundary of
`train` (the values against which the `% target_update_freq == 0` check is
made). -/
def episodeTotals {Obs : Type} (cfg : Config) (envId : String)
    (orcs : ℕ → EpisodeOracle Obs) (st : AgentState Obs)
    (max_steps_per_episode : ℕ) (episodeIdx : ℕ) : ℕ → List ℕ
  | 0 => []
  | numEpisodes + 1 =>
      let r := train_episode cfg envId (orcs episodeIdx) st
        max_steps_per_episode
      r.agent.total_steps :: episodeTotals cfg envId orcs r.agent
        max_steps_per_episode (episodeIdx + 1) numEpisodes

/-- Concrete configuration used to exercise the training driver on explicit
inputs: target synchronization cadence of 2 steps. -/
def cfgC3 : Config :=
  { frames_per_state := 1, minibatch_size := 32, init_random_action_prob := 1,
    min_random_action_prob := 1/10, random_action_prob_decay := 0,
    reward_discount := 9/10, target_update_freq := 2 }

/-- Concrete episode-oracle family whose episodes terminate on the third
environment step (`done` first reported at step index 2). -/
def orcC3 : ℕ → EpisodeOracle ℕ := fun _ =>
  { resetObs := 0, step := fun i _ => ⟨i + 1, 1, i == 2⟩,
    randDraw := fun _ => 1, randomAction := fun _ => 0, greedy := fun _ => 0 }

/-- Concrete configuration used by the witnesses. -/
def cfgW : Config :=
  { frames_per_state := 2, minibatch_size := 3, init_random_action_prob := 1,
    min_random_action_prob := 1/10, random_action_prob_decay := 1/10,
    reward_discount := 9/10, target_update_freq := 4 }

/-- Concrete episode oracle used by the witnesses: the episode terminates on
its first environment step with raw reward 1. -/
def orcW : EpisodeOracle ℕ :=
  { resetObs := 7, step := fun i _ => ⟨i + 1, 1, i == 0⟩,
    randDraw := fun _ => 0, randomAction := fun _ => 0, greedy := fun _ => 0 }

/-- Concrete freshly constructed agent state used by the witnesses. -/
def stW : AgentState ℕ := (DQNAgent_init ℕ cfgW).1

/-- Concrete per-state q-value function used by the witnesses. -/
def netEvalW (s : ℕ) : List ℚ := [(s : ℚ), (s : ℚ) + 1]

/-- Concrete non-terminal minibatch used by the witnesses. -/
def ntW : List (Transition ℕ) := [⟨0, 0, 1, 5, false⟩]

/-- Concrete terminal minibatch used by the witnesses. -/
def tW : List (Transition ℕ) := [⟨1, 1, 7, 6, true⟩]

/-- The transition that `train_episode` on `cfgW`, `orcW`, `stW` and the
CartPole environment id stores at step 0: the raw reward 1 is overridden by
the registered failure penalty -100 on the terminal step. -/
def trW : Transition (List ℕ) := ⟨[7, 7], 0, -100, [7, 1], true⟩

theorem rollRandomActionDice_snd (min_val decay_rate prob draw : ℚ) :
    (rollRandomActionDice min_val decay_rate prob draw).2 =
      decay prob min_val decay_rate := rfl

theorem probAfterCalls_append (min_val decay_rate prob : ℚ)
    (ds es : List ℚ) :
    probAfterCalls min_val decay_rate prob (ds ++ es) =
      probAfterCalls min_val decay_rate
        (probAfterCalls min_val decay_rate prob ds) es := by
  induction ds generalizing prob with
  | nil => rfl
  | cons d ds ih => simp [probAfterCalls, ih]

theorem min_val_le_decay (min_val decay_rate prob : ℚ) :
    min_val ≤ decay prob min_val decay_rate :=
  le_max_left _ _

theorem decay_le_self (min_val decay_rate prob : ℚ)
    (hr : 0 ≤ decay_rate) (hp : min_val ≤ prob) :
    decay prob min_val decay_rate ≤ prob := by
  unfold decay
  exact max_le hp (by linarith)

theorem min_val_le_probAfterCalls (min_val decay_rate prob : ℚ)
    (hp : min_val ≤ prob) (ds : List ℚ) :
    min_val ≤ probAfterCalls min_val decay_rate prob ds := by
  induction ds generalizing prob with
  | nil => exact hp
  | cons d ds ih =>
      simpa [probAfterCalls, rollRandomActionDice] using
        ih (decay prob min_val decay_rate) (min_val_le_decay _ _ _)

theorem probAfterCalls_le (min_val decay_rate prob : ℚ)
    (hr : 0 ≤ decay_rate) (hp : min_val ≤ prob) (ds : List ℚ) :
    probAfterCalls min_val decay_rate prob ds ≤ prob := by
  induction ds generalizing prob with
  | nil => exact le_rfl
  | cons d ds ih =>
      have h1 : probAfterCalls min_val decay_rate
          (decay prob min_val decay_rate) ds ≤ decay prob min_val decay_rate :=
        ih _ (min_val_le_decay _ _ _)
      have h2 := decay_le_self min_val decay_rate prob hr hp
      simpa [probAfterCalls, rollRandomActionDice] using le_trans h1 h2

theorem le_foldl_max (a : ℚ) (l : List ℚ) : a ≤ l.foldl max a := by
  induction l generalizing a with
  | nil => exact le_rfl
  | cons x xs ih => exact le_trans (le_max_left a x) (ih (max a x))

theorem mem_le_foldl_max (a x : ℚ) (l : List ℚ) (hx : x ∈ l) :
    x ≤ l.foldl max a := by
  induction l generalizing a with
  | nil => cases hx
  | cons y ys ih =>
      rcases List.mem_cons.mp hx with h | h
      · subst h
        exact le_trans (le_max_right a x) (le_foldl_max _ _)
      · exact ih _ h

theorem foldl_max_mem (a : ℚ) (l : List ℚ) :
    l.foldl max a = a ∨ l.foldl max a ∈ l := by
  induction l generalizing a with
  | nil => exact Or.inl rfl
  | cons x xs ih =>
      rcases ih (max a x) with h | h
      · rcases max_cases a x with ⟨he, _⟩ | ⟨he, _⟩
        · exact Or.inl (by simpa [List.foldl, he] using h)
        · exact Or.inr (by simp [List.foldl, he] at h ⊢; exact Or.inl h)
      · exact Or.inr (List.mem_cons_of_mem _ h)

theorem rowMax_mem (l : List ℚ) (hl : l ≠ []) : rowMax l ∈ l := by
  rcases l with _ | ⟨x, xs⟩
  · exact absurd rfl hl
  · unfold rowMax
    rcases foldl_max_mem (List.headD (x :: xs) 0) (x :: xs) with h | h
    · rw [h]
      simp [List.headD]
    · exact h

theorem le_rowMax (l : List ℚ) (x : ℚ) (hx : x ∈ l) : x ≤ rowMax l :=
  mem_le_foldl_max _ _ _ hx

theorem feedRows_map_state {σ : Type} (d : ℚ) (n : ℕ)
    (items : List (Transition σ)) (tqs : List ℚ) :
    (feedRows d n items tqs).map (fun r => r.1) =
      items.map (fun tr => tr.state) := by
  induction items generalizing tqs with
  | nil => cases tqs <;> rfl
  | cons it items ih => cases tqs <;> simp [feedRows, ih]

theorem feedRows_map_actions {σ : Type} (d : ℚ) (n : ℕ)
    (items : List (Transition σ)) (tqs : List ℚ) :
    (feedRows d n items tqs).map (fun r => r.2.2) =
      items.map (fun tr => one_hot tr.action n) := by
  induction items generalizing tqs with
  | nil => cases tqs <;> rfl
  | cons it items ih => cases tqs <;> simp [feedRows, ih]

theorem feedRows_pad_expected {σ : Type} (d : ℚ) (n : ℕ)
    (t : List (Transition σ)) :
    (feedRows d n t []).map (fun r => r.2.1) =
      t.map (fun tr => tr.reward) := by
  induction t with
  | nil => rfl
  | cons it t ih => simp [feedRows, ih]

theorem feedRows_zip_expected {σ : Type} (d : ℚ) (n : ℕ)
    (nt t : List (Transition σ)) (tqs : List ℚ)
    (htq : tqs.length = nt.length) :
    (feedRows d n (nt ++ t) tqs).map (fun r => r.2.1) =
      (nt.zip tqs).map (fun p => p.1.reward + d * p.2) ++
        t.map (fun tr => tr.reward) := by
  induction nt generalizing tqs with
  | nil =>
      cases tqs with
      | nil => simpa using feedRows_pad_expected d n t
      | cons tq tqs => cases htq
  | cons it nt ih =>
      cases tqs with
      | nil => cases htq
      | cons tq tqs =>
          simp only [List.length_cons, Nat.succ.injEq] at htq
          simp [feedRows, List.zip_cons_cons, ih tqs htq]

theorem feedRows_maxq_expected {σ : Type} (d : ℚ) (n : ℕ)
    (f : Transition σ → ℚ) (nt t : List (Transition σ)) :
    (feedRows d n (nt ++ t) (nt.map f)).map (fun r => r.2.1) =
      nt.map (fun tr => tr.reward + d * f tr) ++
        t.map (fun tr => tr.reward) := by
  induction nt with
  | nil => simpa using feedRows_pad_expected d n t
  | cons it nt ih => simp [feedRows, ih]

theorem maxQValues_next_states {σ : Type} (netEval : σ → List ℚ)
    (nt : List (Transition σ)) :
    maxQValues netEval (get_next_states nt) =
      nt.map (fun tr => rowMax (netEval tr.next_state)) := by
  simp [maxQValues, get_next_states, List.map_map]

/-- C1: for every sampled minibatch, the expected value fed to the
gradient-update call is `reward + reward_discount * max_q` for each
non-terminal transition — where `max_q` is the maximum over actions of the
target-network evaluation of the `next_state` of that transition — and exactly the
stored reward for each terminal transition, for any discount factor. -/
theorem expected_values_bellman {σ : Type} (reward_discount : ℚ) (n : ℕ)
    (netEval : σ → List ℚ) (memSize minibatch_size : ℕ)
    (nt t : List (Transition σ)) (h : ¬ memSize < minibatch_size)
    (hrow : ∀ s, netEval s ≠ []) :
    ∃ feed,
      train_minibatch reward_discount n netEval memSize minibatch_size nt t =
        [NetworkCall.getMinibatch minibatch_size,
         NetworkCall.predictTarget (get_next_states nt),
         NetworkCall.runTrainOp feed] ∧
      feed.expected_q =
        nt.map (fun tr =>
            tr.reward + reward_discount * rowMax (netEval tr.next_state)) ++
          t.map (fun tr => tr.reward) ∧
      ∀ tr ∈ nt,
        rowMax (netEval tr.next_state) ∈ netEval tr.next_state ∧
        ∀ q ∈ netEval tr.next_state, q ≤ rowMax (netEval tr.next_state) := by
  refine ⟨get_minibatch_feed_dict reward_discount n
    (maxQValues netEval (get_next_states nt)) nt t, ?_, ?_, ?_⟩
  · unfold train_minibatch
    rw [if_neg h]
  · rw [maxQValues_next_states]
    exact feedRows_maxq_expected reward_discount n _ nt t
  · intro tr _
    exact ⟨rowMax_mem _ (hrow _), fun q hq => le_rowMax _ q hq⟩

/-- C2: in the feed dict built for the gradient-update call, the i-th states
entry, the i-th expected-value entry and the i-th one-hot-action entry all
derive from the same transition of the chained minibatch, and all
non-terminal transitions are placed before all terminal transitions. -/
theorem feed_dict_alignment {σ : Type} (d : ℚ) (n : ℕ) (tqs : List ℚ)
    (nt t : List (Transition σ)) (htq : tqs.length = nt.length)
    (hnt : ∀ tr ∈ nt, tr.done = false) (ht : ∀ tr ∈ t, tr.done = true) :
    (get_minibatch_feed_dict d n tqs nt t).states =
      (nt ++ t).map (fun tr => tr.state) ∧
    (get_minibatch_feed_dict d n tqs nt t).actions =
      (nt ++ t).map (fun tr => one_hot tr.action n) ∧
    (get_minibatch_feed_dict d n tqs nt t).expected_q =
      (nt.zip tqs).map (fun p => p.1.reward + d * p.2) ++
        t.map (fun tr => tr.reward) ∧
    ∀ i (hi : i < (nt ++ t).length),
      (((nt ++ t).get ⟨i, hi⟩).done = true ↔ nt.length ≤ i) := by
  refine ⟨feedRows_map_state d n (nt ++ t) tqs,
    feedRows_map_actions d n (nt ++ t) tqs,
    feedRows_zip_expected d n nt t tqs htq, ?_⟩
  intro i hi
  rw [List.get_eq_getElem]
  by_cases hlt : i < nt.length
  · have hmem : (nt ++ t)[i] ∈ nt := by
      rw [List.getElem_append_left hlt]
      exact List.getElem_mem _
    have hdone : (nt ++ t)[i].done = false := hnt _ hmem
    simp [hdone]
    omega
  · have hge : nt.length ≤ i := Nat.le_of_not_lt hlt
    have hmem : (nt ++ t)[i] ∈ t := by
      rw [List.getElem_append_right hge]
      exact List.getElem_mem _
    have hdone : (nt ++ t)[i].done = true := ht _ hmem
    simp [hdone, hge]

/-- C7: when replay-memory occupancy is smaller than the configured minibatch
size, the per-step training operation returns without sampling a minibatch
and without issuing any gradient-update call (it makes no external call at
all, leaving the network parameters unchanged). -/
theorem skip_training_when_memory_small {σ : Type} (reward_discount : ℚ)
    (n : ℕ) (netEval : σ → List ℚ) (memSize minibatch_size : ℕ)
    (nt t : List (Transition σ)) (h : memSize < minibatch_size) :
    train_minibatch reward_discount n netEval memSize minibatch_size nt t =
      [] := by
  unfold train_minibatch
  rw [if_pos h]

/-- C8: when the sampled minibatch contains only terminal transitions, the
training step still invokes the target-network forward evaluation with a
zero-length batch of next states and completes, running the gradient update
on a feed dict carrying one entry per terminal transition. -/
theorem empty_non_terminal_batch {σ : Type} (reward_discount : ℚ) (n : ℕ)
    (netEval : σ → List ℚ) (memSize minibatch_size : ℕ)
    (t : List (Transition σ)) (h : ¬ memSize < minibatch_size) :
    ∃ feed,
      train_minibatch reward_discount n netEval memSize minibatch_size [] t =
        [NetworkCall.getMinibatch minibatch_size,
         NetworkCall.predictTarget [],
         NetworkCall.runTrainOp feed] ∧
      feed.states = t.map (fun tr => tr.state) ∧
      feed.expected_q = t.map (fun tr => tr.reward) := by
  refine ⟨get_minibatch_feed_dict reward_discount n
    (maxQValues netEval (get_next_states [])) [] t, ?_, ?_, ?_⟩
  · unfold train_minibatch
    rw [if_neg h]
    rfl
  · simpa using feedRows_map_state reward_discount n t []
  · simpa using feedRows_pad_expected reward_discount n t

theorem pickAction_snd {σ α : Type} (greedy : σ → α) (sample : α)
    (min_val decay_rate : ℚ) (state : σ) (prob draw : ℚ) :
    (pickAction greedy sample min_val decay_rate state prob draw).2 =
      decay prob min_val decay_rate := rfl

theorem episodeLoop_prob {Obs : Type} (cfg : Config) (envId : String)
    (orc : EpisodeOracle Obs) :
    ∀ (fuel : ℕ) (st : AgentState Obs) (state : List Obs) (stepIdx : ℕ),
    (episodeLoop cfg envId orc st state stepIdx fuel).agent.random_action_prob
      = (fun p => decay p cfg.min_random_action_prob
          cfg.random_action_prob_decay)^[
            (episodeLoop cfg envId orc st state stepIdx fuel).steps]
          st.random_action_prob := by
  intro fuel
  induction fuel with
  | zero => intro st state stepIdx; rfl
  | succ fuel ih =>
      intro st state stepIdx
      simp only [episodeLoop]
      split
      · simp [pickAction, rollRandomActionDice]
      · rw [ih]
        simp only [pickAction_snd]
        rw [Nat.add_comm 1 _, Function.iterate_succ_apply]

theorem episodeLoop_added_spec {Obs : Type} (cfg : Config) (envId : String)
    (orc : EpisodeOracle Obs) :
    ∀ (fuel : ℕ) (st : AgentState Obs) (state : List Obs) (stepIdx i : ℕ)
      (tr : Transition (List Obs)),
    (episodeLoop cfg envId orc st state stepIdx fuel).added[i]? = some tr →
    tr.done = (orc.step (stepIdx + i) tr.action).done ∧
    tr.reward =
      (if (orc.step (stepIdx + i) tr.action).done
       then (FAILURE_PENALTY envId).getD
         (orc.step (stepIdx + i) tr.action).reward
       else (orc.step (stepIdx + i) tr.action).reward) := by
  intro fuel
  induction fuel with
  | zero =>
      intro st state stepIdx i tr h
      simp [episodeLoop] at h
  | succ fuel ih =>
      intro st state stepIdx i tr h
      simp only [episodeLoop] at h
      split at h
      · rename_i hdone
        cases i with
        | zero =>
            simp at h
            subst h
            simp [hdone]
        | succ j => simp at h
      · rename_i hdone
        cases i with
        | zero =>
            simp at h
            subst h
            simp [hdone]
        | succ j =>
            simp only [List.getElem?_cons_succ] at h
            have hrec := ih _ _ (stepIdx + 1) j tr (by simpa using h)
            have harith : stepIdx + 1 + j = stepIdx + (j + 1) := by omega
            rw [harith] at hrec
            exact hrec

theorem episodeLoop_total_reward {Obs : Type} (cfg : Config) (envId : String)
    (orc : EpisodeOracle Obs) :
    ∀ (fuel : ℕ) (st : AgentState Obs) (state : List Obs) (stepIdx : ℕ),
    (episodeLoop cfg envId orc st state stepIdx fuel).total_reward =
      (((episodeLoop cfg envId orc st state stepIdx fuel).added.enumFrom
        stepIdx).map (fun p => (orc.step p.1 p.2.action).reward)).sum := by
  intro fuel
  induction fuel with
  | zero => intro st state stepIdx; rfl
  | succ fuel ih =>
      intro st state stepIdx
      simp only [episodeLoop]
      split
      · simp [List.enumFrom]
      · simp [List.enumFrom, ih]

/-- Claim C4: on each environment step, if `done` is reported then the reward
stored in the transition added to replay memory is the configured
per-environment failure penalty when one is registered for this environment
id and the raw reward otherwise; when `done` is false the raw reward is
stored unmodified. -/
theorem stored_reward_override {Obs : Type} (cfg : Config) (envId : String)
    (orc : EpisodeOracle Obs) (st : AgentState Obs) (max_steps i : ℕ)
    (tr : Transition (List Obs))
    (h : (train_episode cfg envId orc st max_steps).added[i]? = some tr) :
    tr.done = (orc.step i tr.action).done ∧
    tr.reward =
      (if (orc.step i tr.action).done
       then (FAILURE_PENALTY envId).getD (orc.step i tr.action).reward
       else (orc.step i tr.action).reward) := by
  have hspec := episodeLoop_added_spec cfg envId orc max_steps _ _ 0 i tr h
  simpa using hspec

/-- Claim C10: the per-episode total reward returned by `train_episode` (and
then logged to statistics) accumulates the raw environment rewards before any
failure-penalty override; the override affects only the reward stored in the
transition, so on a penalized terminal step whose registered penalty differs
from the raw reward, the stored transition reward differs from the raw reward
that was accumulated into the episode total. -/
theorem episode_reward_uses_raw_rewards {Obs : Type} (cfg : Config)
    (envId : String) (orc : EpisodeOracle Obs) (st : AgentState Obs)
    (max_steps : ℕ) :
    (train_episode cfg envId orc st max_steps).total_reward =
      (((train_episode cfg envId orc st max_steps).added.enumFrom 0).map
        (fun p => (orc.step p.1 p.2.action).reward)).sum ∧
    ∀ (i : ℕ) (tr : Transition (List Obs)) (p : ℚ),
      (train_episode cfg envId orc st max_steps).added[i]? = some tr →
      tr.done = true → FAILURE_PENALTY envId = some p →
      tr.reward = p ∧
      (p ≠ (orc.step i tr.action).reward →
        tr.reward ≠ (orc.step i tr.action).reward) := by
  constructor
  · exact episodeLoop_total_reward cfg envId orc max_steps _ _ 0
  · intro i tr p h hdone hpen
    have hspec := episodeLoop_added_spec cfg envId orc max_steps _ _ 0 i tr h
    rw [Nat.zero_add] at hspec
    have hd : (orc.step i tr.action).done = true := by
      rw [← hspec.1]
      exact hdone
    have hr : tr.reward = p := by
      rw [hspec.2, if_pos hd, hpen]
      rfl
    refine ⟨hr, fun hne => ?_⟩
    rw [hr]
    exact hne

/-- Claim C5: every action-selection call decays the exploration probability
exactly once, before the random-versus-greedy branch is decided, regardless
of the branch taken: the updated probability is the decay of the old one in
both branches, the dice roll is compared against the already-decayed
probability, and across an episode the final probability is the decay
function iterated exactly once per step. -/
theorem decay_once_per_action_selection {Obs : Type} (cfg : Config)
    (envId : String) (orc : EpisodeOracle Obs) (st : AgentState Obs)
    (max_steps : ℕ) (greedy : List Obs → ℕ) (sample : ℕ) (state : List Obs)
    (prob draw : ℚ) :
    (pickAction greedy sample cfg.min_random_action_prob
        cfg.random_action_prob_decay state prob draw).2 =
      decay prob cfg.min_random_action_prob cfg.random_action_prob_decay ∧
    (pickAction greedy sample cfg.min_random_action_prob
        cfg.random_action_prob_decay state prob draw).1 =
      (if draw < decay prob cfg.min_random_action_prob
          cfg.random_action_prob_decay
       then sample else greedy state) ∧
    (train_episode cfg envId orc st max_steps).agent.random_action_prob =
      (fun p => decay p cfg.min_random_action_prob
          cfg.random_action_prob_decay)^[
        (train_episode cfg envId orc st max_steps).steps]
        st.random_action_prob := by
  refine ⟨rfl, ?_, ?_⟩
  · simp [pickAction, rollRandomActionDice]
  · exact episodeLoop_prob cfg envId orc max_steps _ _ 0

/-- Claim C6: across any sequence of action-selection calls, the exploration
probability never drops below the configured floor and is monotonically
non-increasing (one further call never increases it), for a non-negative
decay rate and an initial probability at or above the floor. -/
theorem exploration_prob_floor_and_monotone (min_val decay_rate prob : ℚ)
    (hr : 0 ≤ decay_rate) (hp : min_val ≤ prob) (ds : List ℚ) (d : ℚ) :
    min_val ≤ probAfterCalls min_val decay_rate prob ds ∧
    probAfterCalls min_val decay_rate prob (ds ++ [d]) ≤
      probAfterCalls min_val decay_rate prob ds := by
  have hfloor := min_val_le_probAfterCalls min_val decay_rate prob hp ds
  refine ⟨hfloor, ?_⟩
  rw [probAfterCalls_append]
  simpa [probAfterCalls, rollRandomActionDice] using
    decay_le_self min_val decay_rate _ hr hfloor

/-- Claim C9: at the start of every episode (the frame accumulator being
cleared on reset), the Training Loop seeds the accumulator with exactly one
append of the reset observation immediately after the environment reset and
before it ever reads a state, so the first exposed state is the refilled
window holding the reset observation. -/
theorem episode_reset_seeds_frame_buffer {Obs : Type} (cfg : Config)
    (envId : String) (orc : EpisodeOracle Obs) (st : AgentState Obs)
    (max_steps : ℕ) (hclear : st.frame_buffer.frames = []) :
    ∃ rest, (train_episode cfg envId orc st max_steps).trace =
      Event.envReset :: Event.fbAppend orc.resetObs ::
        Event.fbGetState (List.replicate st.frame_buffer.frames_per_state
          orc.resetObs) :: rest := by
  have hstate : (st.frame_buffer.append orc.resetObs).get_state =
      List.replicate st.frame_buffer.frames_per_state orc.resetObs := by
    simp [FrameBuffer.append, FrameBuffer.get_state, hclear]
  have htrace : (train_episode cfg envId orc st max_steps).trace =
      Event.envReset :: Event.fbAppend orc.resetObs ::
        Event.fbGetState ((st.frame_buffer.append orc.resetObs).get_state) ::
        (episodeLoop cfg envId orc
          { st with frame_buffer := st.frame_buffer.append orc.resetObs }
          ((st.frame_buffer.append orc.resetObs).get_state) 0
          max_steps).trace := rfl
  exact ⟨_, by rw [htrace, hstate]⟩

/-- Claim C3 (amended): the target-network synchronization is invoked once
unconditionally at agent construction, and during training it is checked only
at episode boundaries: after each episode it is invoked exactly when the
cumulative environment-step counter at that boundary is divisible by
`target_update_freq` — not once every `target_update_freq` environment
steps. -/
theorem target_sync_schedule {Obs : Type} (cfg : Config) (envId : String)
    (orcs : ℕ → EpisodeOracle Obs) (st : AgentState Obs)
    (max_steps epIdx numEpisodes : ℕ) :
    syncCount (train cfg envId orcs st max_steps epIdx numEpisodes).2 =
      (episodeTotals cfg envId orcs st max_steps epIdx numEpisodes).countP
        (fun tot => tot % cfg.target_update_freq == 0) ∧
    syncCount (DQNAgent_init Obs cfg).2 = 1 := by
  constructor
  · induction numEpisodes generalizing st epIdx with
    | zero => rfl
    | succ ne ih =>
        simp only [syncCount] at ih ⊢
        simp only [train, episodeTotals]
        by_cases hc : (train_episode cfg envId (orcs epIdx) st
            max_steps).agent.total_steps % cfg.target_update_freq = 0
        · simp [hc, List.countP_cons, List.countP_append, isSync, ih]
        · simp [hc, List.countP_cons, List.countP_append, isSync, ih]
  · rfl

/-- Claim C3, counterexample: with `target_update_freq = 2` and one training
episode of 3 environment steps, a synchronization once every 2 environment
steps would mean 1 sync during training, but the driver performs 0 — the
divisibility check happens only at the episode boundary, where
`total_steps = 3` is not divisible by 2. -/
theorem target_sync_not_every_freq_steps :
    (train cfgC3 "Pong-v0" orcC3 (DQNAgent_init ℕ cfgC3).1 10 0
        1).1.total_steps = 3 ∧
    syncCount (train cfgC3 "Pong-v0" orcC3 (DQNAgent_init ℕ cfgC3).1 10 0
        1).2 = 0 ∧
    3 / 2 = 1 := by
  refine ⟨?_, ?_, rfl⟩ <;> rfl

/-- Witness for `expected_values_bellman` at a concrete minibatch: one
non-terminal and one terminal transition, with memory occupancy 4 and
minibatch size 2. -/
theorem expected_values_bellman_witness :
    ∃ feed,
      train_minibatch (9/10 : ℚ) 2 netEvalW 4 2 ntW tW =
        [NetworkCall.getMinibatch 2,
         NetworkCall.predictTarget (get_next_states ntW),
         NetworkCall.runTrainOp feed] ∧
      feed.expected_q =
        ntW.map (fun tr =>
            tr.reward + (9/10 : ℚ) * rowMax (netEvalW tr.next_state)) ++
          tW.map (fun tr => tr.reward) ∧
      ∀ tr ∈ ntW,
        rowMax (netEvalW tr.next_state) ∈ netEvalW tr.next_state ∧
        ∀ q ∈ netEvalW tr.next_state, q ≤ rowMax (netEvalW tr.next_state) :=
  expected_values_bellman (9/10) 2 netEvalW 4 2 ntW tW (by decide)
    (fun s => by simp [netEvalW])

/-- Witness for `feed_dict_alignment` at a concrete minibatch. -/
theorem feed_dict_alignment_witness :
    (get_minibatch_feed_dict (9/10 : ℚ) 2 [3] ntW tW).states =
      (ntW ++ tW).map (fun tr => tr.state) ∧
    (get_minibatch_feed_dict (9/10 : ℚ) 2 [3] ntW tW).actions =
      (ntW ++ tW).map (fun tr => one_hot tr.action 2) ∧
    (get_minibatch_feed_dict (9/10 : ℚ) 2 [3] ntW tW).expected_q =
      (ntW.zip [3]).map (fun p => p.1.reward + (9/10 : ℚ) * p.2) ++
        tW.map (fun tr => tr.reward) ∧
    ∀ i (hi : i < (ntW ++ tW).length),
      (((ntW ++ tW).get ⟨i, hi⟩).done = true ↔ ntW.length ≤ i) :=
  feed_dict_alignment (9/10) 2 [3] ntW tW (by decide) (by decide) (by decide)

theorem added0W :
    (train_episode cfgW "CartPole-v0" orcW stW 5).added[0]? = some trW := by
  simp [train_episode, episodeLoop, pickAction, rollRandomActionDice, stW,
    cfgW, orcW, trW, DQNAgent_init, FrameBuffer.append, FrameBuffer.get_state,
    FAILURE_PENALTY, List.replicate]

/-- Witness for `stored_reward_override`: the terminal step of the concrete
episode stores the CartPole failure penalty instead of the raw reward. -/
theorem stored_reward_override_witness :
    trW.done = (orcW.step 0 trW.action).done ∧
    trW.reward =
      (if (orcW.step 0 trW.action).done
       then (FAILURE_PENALTY "CartPole-v0").getD
         (orcW.step 0 trW.action).reward
       else (orcW.step 0 trW.action).reward) :=
  stored_reward_override cfgW "CartPole-v0" orcW stW 5 0 trW added0W

/-- Witness for `episode_reward_uses_raw_rewards`: the stored transition of
the concrete episode carries the -100 penalty and differs from the raw
environment reward that was accumulated into the episode total. -/
theorem episode_reward_uses_raw_rewards_witness :
    trW.reward = -100 ∧
    trW.reward ≠ (orcW.step 0 trW.action).reward := by
  have h2 := (episode_reward_uses_raw_rewards cfgW "CartPole-v0" orcW stW
    5).2 0 trW (-100) added0W rfl rfl
  have hne : (-100 : ℚ) ≠ (orcW.step 0 trW.action).reward := by
    norm_num [orcW]
  exact ⟨h2.1, h2.2 hne⟩

/-- Witness for `exploration_prob_floor_and_monotone` on a concrete decay
schedule. -/
theorem exploration_prob_floor_and_monotone_witness :
    (1/10 : ℚ) ≤ probAfterCalls (1/10) (1/10) 1 [0, 0] ∧
    probAfterCalls (1/10 : ℚ) (1/10) 1 ([0, 0] ++ [0]) ≤
      probAfterCalls (1/10) (1/10) 1 [0, 0] :=
  exploration_prob_floor_and_monotone (1/10) (1/10) 1 (by norm_num)
    (by norm_num) [0, 0] 0

/-- Witness for `skip_training_when_memory_small`: occupancy 1 is below
minibatch size 3, so no external call is made. -/
theorem skip_training_when_memory_small_witness :
    train_minibatch (9/10 : ℚ) 2 netEvalW 1 3 ntW tW = [] :=
  skip_training_when_memory_small (9/10) 2 netEvalW 1 3 ntW tW (by decide)

/-- Witness for `empty_non_terminal_batch`: an all-terminal minibatch still
leads to a zero-length target-network evaluation and a gradient update. -/
theorem empty_non_terminal_batch_witness :
    ∃ feed,
      train_minibatch (9/10 : ℚ) 2 netEvalW 4 3 [] tW =
        [NetworkCall.getMinibatch 3, NetworkCall.predictTarget [],
         NetworkCall.runTrainOp feed] ∧
      feed.states = tW.map (fun tr => tr.state) ∧
      feed.expected_q = tW.map (fun tr => tr.reward) :=
  empty_non_terminal_batch (9/10) 2 netEvalW 4 3 tW (by decide)

/-- Witness for `episode_reset_seeds_frame_buffer` on the concrete episode:
the trace opens with reset, one seeding append, and the first state read
returning the refilled two-frame window. -/
theorem episode_reset_seeds_frame_buffer_witness :
    ∃ rest, (train_episode cfgW "CartPole-v0" orcW stW 5).trace =
      Event.envReset :: Event.fbAppend orcW.resetObs ::
        Event.fbGetState (List.replicate stW.frame_buffer.frames_per_state
          orcW.resetObs) :: rest :=
  episode_reset_seeds_frame_buffer cfgW "CartPole-v0" orcW stW 5 rfl

end DistDQN
